import Mathlib

/-!
# Shipment-to-driver assignment

A shallow embedding of `assignShipmentToDriver.js` (the feature extractors
`generateShipmentMap` and `generateDriverMap`, the vowel counter and the
two-phase matcher) together with theorems about it.

Conventions of the embedding.

* A JavaScript string is the list of its UTF-16 code units (`JSString`), so
  that `.length` is `List.length`.
* `String.prototype.toLowerCase` is a built-in driven by the Unicode case
  tables; it is taken as a parameter `toLowerCase`. `asciiLower` is the
  built-in restricted to ASCII text and is used for concrete runs.
* Scores are products of a vowel count with `1`, `1.5` and `1.5`; they are
  dyadic fractions that IEEE doubles represent exactly for every input that
  fits in memory, and are modelled as rationals.
* A property read on `undefined` raises a `TypeError`; functions that can
  reach such a read return `Option`, with `none` for the raised error.
-/

namespace ShipmentAssignment

/-- A JavaScript string: its UTF-16 code units. -/
abbrev JSString := List Nat

/-- UTF-16 encoding of a Lean string, for writing JavaScript string literals. -/
def utf16 (s : String) : JSString :=
  s.toList.flatMap fun c =>
    if c.toNat < 65536 then [c.toNat]
    else [55296 + (c.toNat - 65536) / 1024, 56320 + (c.toNat - 65536) % 1024]

/-- Code unit of the space character. -/
def SPACE : Nat := 32

/-- Code unit of the comma, the default separator of `Array.prototype.join`. -/
def COMMA : Nat := 44

/-- The code units removed by `String.prototype.trim`: ECMAScript WhiteSpace
and LineTerminator. -/
def isWhiteSpace (c : Nat) : Bool :=
  c = 9 || c = 10 || c = 11 || c = 12 || c = 13 || c = 32 || c = 160 ||
  c = 5760 || (8192 ≤ c && c ≤ 8202) || c = 8232 || c = 8233 || c = 8239 ||
  c = 8287 || c = 12288 || c = 65279

/-- `String.prototype.trim`: strips white space from both ends. -/
def trim (s : JSString) : JSString :=
  ((s.dropWhile isWhiteSpace).reverse.dropWhile isWhiteSpace).reverse

/-- `String.prototype.split` with a one-unit separator: cuts at every
occurrence of `sep`; the empty string yields one empty token. -/
def split (sep : Nat) : JSString → List JSString
  | [] => [[]]
  | c :: cs =>
    if c = sep then [] :: split sep cs
    else
      match split sep cs with
      | [] => [[c]]
      | t :: ts => (c :: t) :: ts

/-- `Array.prototype.join()` called without an argument: the separator is a
comma. -/
def join (arr : List JSString) : JSString :=
  List.intercalate [COMMA] arr

/-- `Array.prototype.pop`, keeping the remaining array. -/
def pop (arr : List JSString) : List JSString := arr.dropLast

/-- `Array.prototype.splice(0, 1)`, keeping the remaining array. -/
def splice01 (arr : List JSString) : List JSString := arr.drop 1

/-- ASCII lower-casing: what `toLowerCase` does on ASCII text. -/
def asciiLower (s : JSString) : JSString :=
  s.map fun c => if 65 ≤ c ∧ c ≤ 90 then c + 32 else c

/-- Score multiplier for a destination of even street-name length. -/
def EVEN_MULTIPLIER : ℚ := 3 / 2

/-- Score multiplier for a destination of odd street-name length. -/
def ODD_MULTIPLIER : ℚ := 1

/-- Extra multiplier when the two lengths are equal. -/
def MATCH_MULTIPLIER : ℚ := 3 / 2

/-- Default vowel array: one-unit strings `a e i o u y`. -/
def ENGLISH_VOWELS : List JSString := [[97], [101], [105], [111], [117], [121]]

/-- `countVowels`: walks the string and counts the positions whose one-unit
string occurs in `vowelArray` (`indexOf(char) >= 0`). -/
def countVowels (targetString : JSString) (vowelArray : List JSString := ENGLISH_VOWELS) : Nat :=
  targetString.foldl (fun count char => if [char] ∈ vowelArray then count + 1 else count) 0

/-- Record pushed by `generateShipmentMap`: `{address, isOdd, length}`. -/
structure ShipmentRecord where
  address : JSString
  isOdd : Bool
  length : Nat
  deriving DecidableEq, Repr

/-- Record pushed by `generateDriverMap`: `{name, vowels, isOdd, length}`. -/
structure DriverRecord where
  name : JSString
  vowels : Nat
  isOdd : Bool
  length : Nat
  deriving DecidableEq, Repr

/-- Body of the loop of `generateShipmentMap`, threaded over the remaining
lines with the array `resolvedShipments` built so far. -/
def generateShipmentMapLoop (toLowerCase : JSString → JSString) :
    List JSString → List ShipmentRecord → List ShipmentRecord
  | [], resolvedShipments => resolvedShipments
  | line :: rest, resolvedShipments =>
    let thisShipment := trim line
    let streetArr := split SPACE thisShipment
    if streetArr.length < 2 then
      generateShipmentMapLoop toLowerCase rest resolvedShipments
    else
      let streetArr := splice01 (pop streetArr)
      let streetName := toLowerCase (join streetArr)
      let isOdd := decide (streetName.length % 2 ≠ 0)
      let thisMap : ShipmentRecord :=
        { address := thisShipment, isOdd := isOdd, length := streetName.length }
      generateShipmentMapLoop toLowerCase rest (resolvedShipments ++ [thisMap])

/-- `generateShipmentMap`. -/
def generateShipmentMap (toLowerCase : JSString → JSString) (shipmentArray : List JSString) :
    List ShipmentRecord :=
  generateShipmentMapLoop toLowerCase shipmentArray []

/-- Body of the loop of `generateDriverMap`, threaded over the remaining
lines with the array `resolvedDrivers` built so far. -/
def generateDriverMapLoop : List JSString → List DriverRecord → List DriverRecord
  | [], resolvedDrivers => resolvedDrivers
  | line :: rest, resolvedDrivers =>
    let thisDriver := trim line
    let driverArr := split SPACE thisDriver
    let driverName := join driverArr
    if driverName.length < 1 then
      generateDriverMapLoop rest resolvedDrivers
    else
      let vowelCount := countVowels driverName
      let isOdd := decide (driverName.length % 2 ≠ 0)
      let thisMap : DriverRecord :=
        { name := thisDriver, vowels := vowelCount, isOdd := isOdd, length := driverName.length }
      generateDriverMapLoop rest (resolvedDrivers ++ [thisMap])

/-- `generateDriverMap`. -/
def generateDriverMap (driverArray : List JSString) : List DriverRecord :=
  generateDriverMapLoop driverArray []

/-- A JavaScript number as a sort comparator returns it: an integer, or
`none` for `NaN`. -/
abbrev JSNumber := Option Int

/-- Subtraction of two property reads; `none` on an operand is `undefined`,
and `undefined - x` is `NaN`. -/
def jsSub (a b : Option Nat) : JSNumber :=
  match a, b with
  | some x, some y => some ((x : Int) - (y : Int))
  | _, _ => none

/-- Reading `.vowelCount` on a driver record. The records carry the keys
`name`, `vowels`, `isOdd` and `length` only, so the read yields `undefined`. -/
def DriverRecord.vowelCount (_ : DriverRecord) : Option Nat := none

/-- `Array.prototype.sort(comparator)`: a stable sort in which `a` stays in
front of `b` unless the comparator value is positive; a `NaN` value counts
as `+0`. -/
def sort {α : Type} (comparator : α → α → JSNumber) (arr : List α) : List α :=
  arr.insertionSort fun first second => (comparator first second).getD 0 ≤ 0

/-- Comparator of the shipment sort: `second.length - first.length`. -/
def shipmentComparator (first second : ShipmentRecord) : JSNumber :=
  jsSub (some second.length) (some first.length)

/-- Comparator of the driver sort: `second.vowelCount - first.vowelCount`. -/
def driverComparator (first second : DriverRecord) : JSNumber :=
  jsSub second.vowelCount first.vowelCount

/-- One entry of `matches`: `[address, name, score]`. -/
abbrev MatchEntry := JSString × JSString × ℚ

/-- The mutable locals of `assignShipmentToDriver`; `matchArr` is the array
`matches`. -/
structure LoopState where
  totalSS : ℚ
  matchArr : List MatchEntry
  oddShipments : List ShipmentRecord
  lastDriver : Nat
  deriving DecidableEq

/-- The returned object `{matches, total}`; `matchArr` is its `matches`. -/
structure MatchResult where
  matchArr : List MatchEntry
  total : ℚ
  deriving DecidableEq

/-- Score of a pairing: base multiplier times the vowel count, times the
match multiplier when the two lengths are equal. -/
def pairScore (multiplier : ℚ) (thisShipment : ShipmentRecord) (thisDriver : DriverRecord) : ℚ :=
  let thisSS := (thisDriver.vowels : ℚ) * multiplier
  if thisShipment.length = thisDriver.length then thisSS * MATCH_MULTIPLIER else thisSS

/-- State after a pairing: total raised, entry pushed, cursor advanced. -/
def recordMatch (multiplier : ℚ) (thisShipment : ShipmentRecord) (thisDriver : DriverRecord)
    (st : LoopState) : LoopState :=
  let thisSS := pairScore multiplier thisShipment thisDriver
  { st with
    totalSS := st.totalSS + thisSS
    matchArr := st.matchArr ++ [(thisShipment.address, thisDriver.name, thisSS)]
    lastDriver := st.lastDriver + 1 }

/-- First loop: `n` iterations starting at index `s`. Both array reads may
yield `undefined` (`none`); the failure comes with the first property read
on it. -/
def phase1Loop (shipmentMappedArray : List ShipmentRecord) (driverMappedArray : List DriverRecord) :
    Nat → Nat → LoopState → Option LoopState
  | 0, _, st => some st
  | n + 1, s, st =>
    let thisShipment := shipmentMappedArray[s]?
    let thisDriver := driverMappedArray[st.lastDriver]?
    match thisShipment with
    | none => none
    | some thisShipment =>
      if thisShipment.isOdd then
        phase1Loop shipmentMappedArray driverMappedArray n (s + 1)
          { st with oddShipments := st.oddShipments ++ [thisShipment] }
      else
        match thisDriver with
        | none => none
        | some thisDriver =>
          phase1Loop shipmentMappedArray driverMappedArray n (s + 1)
            (recordMatch EVEN_MULTIPLIER thisShipment thisDriver st)

/-- Second loop: at most `n` iterations starting at index `s` of
`oddShipments`, left early when the cursor reaches `driverCount`, the length
of the raw driver array. -/
def phase2Loop (oddShipments : List ShipmentRecord) (driverMappedArray : List DriverRecord)
    (driverCount : Nat) : Nat → Nat → LoopState → Option LoopState
  | 0, _, st => some st
  | n + 1, s, st =>
    match oddShipments[s]?, driverMappedArray[st.lastDriver]? with
    | some thisShipment, some thisDriver =>
      let st := recordMatch ODD_MULTIPLIER thisShipment thisDriver st
      if driverCount ≤ st.lastDriver then some st
      else phase2Loop oddShipments driverMappedArray driverCount n (s + 1) st
    | _, _ => none

/-- The locals as initialised before the first loop: `totalSS = 0`,
`matches = []`, `oddShipments = []`, `lastDriver = 0`. -/
def initialState : LoopState :=
  { totalSS := 0, matchArr := [], oddShipments := [], lastDriver := 0 }

/-- The loop bound `length`: the number of shipment records, lowered to the
number of driver records when that is smaller. -/
def usableLength (shipmentMappedArray : List ShipmentRecord)
    (driverMappedArray : List DriverRecord) : Nat :=
  if shipmentMappedArray.length > driverMappedArray.length then driverMappedArray.length
  else shipmentMappedArray.length

/-- The matcher on the two sorted record arrays; `driverCount` is
`driverArray.length`, the length of the raw driver array. -/
def matchSorted (shipmentMappedArray : List ShipmentRecord) (driverMappedArray : List DriverRecord)
    (driverCount : Nat) : Option MatchResult :=
  let length := usableLength shipmentMappedArray driverMappedArray
  (phase1Loop shipmentMappedArray driverMappedArray length 0 initialState).bind fun st =>
    (phase2Loop st.oddShipments driverMappedArray driverCount st.oddShipments.length 0 st).map
      fun st => { matchArr := st.matchArr, total := st.totalSS }

/-- The array `shipmentMappedArray` after its sort. -/
def shipmentMappedArray (toLowerCase : JSString → JSString) (shipmentArray : List JSString) :
    List ShipmentRecord :=
  sort shipmentComparator (generateShipmentMap toLowerCase shipmentArray)

/-- The array `driverMappedArray` after its sort. -/
def driverMappedArray (driverArray : List JSString) : List DriverRecord :=
  sort driverComparator (generateDriverMap driverArray)

/-- `assignShipmentToDriver`. -/
def assignShipmentToDriver (toLowerCase : JSString → JSString)
    (shipmentArray driverArray : List JSString) : Option MatchResult :=
  matchSorted (shipmentMappedArray toLowerCase shipmentArray) (driverMappedArray driverArray)
    driverArray.length

/-! ## Vocabulary of the statements -/

/-- Entry pushed for a pairing scored with `multiplier`. -/
def mkEntry (multiplier : ℚ) (thisShipment : ShipmentRecord) (thisDriver : DriverRecord) :
    MatchEntry :=
  (thisShipment.address, thisDriver.name, pairScore multiplier thisShipment thisDriver)

/-- Score carried by an entry (its third component). -/
def entryScore (e : MatchEntry) : ℚ := e.2.2

/-- The destinations in pairing order: among the first `usableLength` sorted
records, those not flagged odd, then those flagged odd. -/
def pairedShipments (S : List ShipmentRecord) (Dr : List DriverRecord) : List ShipmentRecord :=
  ((S.take (usableLength S Dr)).filter fun d => !d.isOdd) ++
    (S.take (usableLength S Dr)).filter fun d => d.isOdd

/-- Entry for a pairing, the multiplier chosen by the record's `isOdd` flag. -/
def entryOf (thisShipment : ShipmentRecord) (thisDriver : DriverRecord) : MatchEntry :=
  mkEntry (if thisShipment.isOdd then ODD_MULTIPLIER else EVEN_MULTIPLIER) thisShipment thisDriver

/-- The record `generateShipmentMap` pushes for one line, if it pushes one. -/
def shipmentOfLine (toLowerCase : JSString → JSString) (line : JSString) : Option ShipmentRecord :=
  if (split SPACE (trim line)).length < 2 then none
  else some
    { address := trim line
      isOdd := decide ((toLowerCase (join (splice01 (pop (split SPACE (trim line)))))).length % 2 ≠ 0)
      length := (toLowerCase (join (splice01 (pop (split SPACE (trim line)))))).length }

/-- The record `generateDriverMap` pushes for one line, if it pushes one. -/
def driverOfLine (line : JSString) : Option DriverRecord :=
  if (join (split SPACE (trim line))).length < 1 then none
  else some
    { name := trim line
      vowels := countVowels (join (split SPACE (trim line)))
      isOdd := decide ((join (split SPACE (trim line))).length % 2 ≠ 0)
      length := (join (split SPACE (trim line))).length }

/-- The `isOdd` flag of the record at index `i`; `false` past the end. -/
def isOddAt (S : List ShipmentRecord) (i : Nat) : Bool :=
  match S[i]? with
  | some d => d.isOdd
  | none => false

/-- Indices into the sorted shipment array in the order the two loops pair
them: below the loop bound, first those not flagged odd, then those flagged
odd. -/
def pairingOrder (S : List ShipmentRecord) (Dr : List DriverRecord) : List Nat :=
  ((List.range (usableLength S Dr)).filter fun i => !isOddAt S i) ++
    (List.range (usableLength S Dr)).filter fun i => isOddAt S i

/-- Destination lines of the running example. -/
def exampleShipments : List JSString := [utf16 "123 Main Street", utf16 "456 Oak Dr"]

/-- Agent lines of the running example. -/
def exampleDrivers : List JSString := [utf16 "Ann Apple", utf16 "Bob"]

/-- Variant of the second loop without its early exit: every iteration runs
to the end of the body and goes on to the next index. -/
def phase2LoopNoBreak (oddShipments : List ShipmentRecord)
    (driverMappedArray : List DriverRecord) : Nat → Nat → LoopState → Option LoopState
  | 0, _, st => some st
  | n + 1, s, st =>
    match oddShipments[s]?, driverMappedArray[st.lastDriver]? with
    | some thisShipment, some thisDriver =>
      phase2LoopNoBreak oddShipments driverMappedArray n (s + 1)
        (recordMatch ODD_MULTIPLIER thisShipment thisDriver st)
    | _, _ => none

/-- Variant of `matchSorted` whose second loop has no early exit. -/
def matchSortedNoBreak (shipmentMappedArray : List ShipmentRecord)
    (driverMappedArray : List DriverRecord) : Option MatchResult :=
  let length := usableLength shipmentMappedArray driverMappedArray
  (phase1Loop shipmentMappedArray driverMappedArray length 0 initialState).bind fun st =>
    (phase2LoopNoBreak st.oddShipments driverMappedArray st.oddShipments.length 0 st).map
      fun st => { matchArr := st.matchArr, total := st.totalSS }

/-- Variant of `assignShipmentToDriver` whose second loop has no early exit. -/
def assignShipmentToDriverNoBreak (toLowerCase : JSString → JSString)
    (shipmentArray driverArray : List JSString) : Option MatchResult :=
  matchSortedNoBreak (shipmentMappedArray toLowerCase shipmentArray)
    (driverMappedArray driverArray)

/-- Joining tokens with no separator between them, as `join('')` would. -/
def joinNoSeparator (arr : List JSString) : JSString := arr.flatten

/-! ## The two loops -/

theorem phase1Loop_eq (S : List ShipmentRecord) (Dr : List DriverRecord) :
    ∀ (n s : Nat) (st : LoopState), s + n ≤ S.length → st.lastDriver + n ≤ Dr.length →
      phase1Loop S Dr n s st = some
        { totalSS := st.totalSS +
            ((List.zipWith (mkEntry EVEN_MULTIPLIER)
              (((S.drop s).take n).filter fun d => !d.isOdd) (Dr.drop st.lastDriver)).map
                entryScore).sum
          matchArr := st.matchArr ++
            List.zipWith (mkEntry EVEN_MULTIPLIER)
              (((S.drop s).take n).filter fun d => !d.isOdd) (Dr.drop st.lastDriver)
          oddShipments := st.oddShipments ++ ((S.drop s).take n).filter fun d => d.isOdd
          lastDriver := st.lastDriver +
            (((S.drop s).take n).filter fun d => !d.isOdd).length } := by
  intro n
  induction n with
  | zero => intro s st _ _; simp [phase1Loop]
  | succ n ih =>
    intro s st hs hd
    have hs1 : s < S.length := by omega
    have hSd : S.drop s = S[s] :: S.drop (s + 1) := List.drop_eq_getElem_cons hs1
    rw [phase1Loop]
    simp only [List.getElem?_eq_getElem hs1]
    by_cases hodd : S[s].isOdd = true
    · rw [if_pos hodd, ih (s + 1) _ (by omega) (by simpa using by omega)]
      rw [hSd, List.take_succ_cons]
      simp [hodd, List.append_assoc]
    · have hc : st.lastDriver < Dr.length := by omega
      have hDd : Dr.drop st.lastDriver = Dr[st.lastDriver] :: Dr.drop (st.lastDriver + 1) :=
        List.drop_eq_getElem_cons hc
      rw [if_neg hodd]
      simp only [List.getElem?_eq_getElem hc]
      rw [ih (s + 1) _ (by omega) (by simp only [recordMatch]; omega)]
      simp only [Bool.not_eq_true] at hodd
      rw [hSd, List.take_succ_cons]
      simp only [recordMatch, List.filter_cons, hodd, Bool.not_false, if_true]
      rw [hDd]
      simp [-List.getElem_cons_drop, mkEntry, entryScore, List.append_assoc, add_assoc,
        Nat.add_comm 1]

theorem phase2Loop_eq (odd : List ShipmentRecord) (Dr : List DriverRecord) (driverCount : Nat)
    (hcount : Dr.length ≤ driverCount) :
    ∀ (n s : Nat) (st : LoopState), s + n ≤ odd.length → st.lastDriver + n ≤ Dr.length →
      phase2Loop odd Dr driverCount n s st = some
        { totalSS := st.totalSS +
            ((List.zipWith (mkEntry ODD_MULTIPLIER) ((odd.drop s).take n)
              (Dr.drop st.lastDriver)).map entryScore).sum
          matchArr := st.matchArr ++
            List.zipWith (mkEntry ODD_MULTIPLIER) ((odd.drop s).take n) (Dr.drop st.lastDriver)
          oddShipments := st.oddShipments
          lastDriver := st.lastDriver + n } := by
  intro n
  induction n with
  | zero => intro s st _ _; simp [phase2Loop]
  | succ n ih =>
    intro s st hs hd
    have hs1 : s < odd.length := by omega
    have hc : st.lastDriver < Dr.length := by omega
    have hSd : odd.drop s = odd[s] :: odd.drop (s + 1) := List.drop_eq_getElem_cons hs1
    have hDd : Dr.drop st.lastDriver = Dr[st.lastDriver] :: Dr.drop (st.lastDriver + 1) :=
      List.drop_eq_getElem_cons hc
    rw [phase2Loop]
    simp only [List.getElem?_eq_getElem hs1, List.getElem?_eq_getElem hc]
    by_cases hbrk : driverCount ≤ (recordMatch ODD_MULTIPLIER odd[s] Dr[st.lastDriver] st).lastDriver
    · rw [if_pos hbrk]
      have hn : n = 0 := by simp only [recordMatch] at hbrk; omega
      subst hn
      rw [hSd, hDd]
      simp [-List.getElem_cons_drop, recordMatch, mkEntry, entryScore]
    · rw [if_neg hbrk, ih (s + 1) _ (by omega) (by simp only [recordMatch]; omega)]
      rw [hSd, List.take_succ_cons]
      simp only [recordMatch]
      rw [hDd]
      simp [-List.getElem_cons_drop, mkEntry, entryScore, List.append_assoc, add_assoc,
        Nat.add_comm 1]

theorem usableLength_le_left (S : List ShipmentRecord) (Dr : List DriverRecord) :
    usableLength S Dr ≤ S.length := by
  unfold usableLength; split <;> omega

theorem usableLength_le_right (S : List ShipmentRecord) (Dr : List DriverRecord) :
    usableLength S Dr ≤ Dr.length := by
  unfold usableLength; split <;> omega

theorem usableLength_eq_min (S : List ShipmentRecord) (Dr : List DriverRecord) :
    usableLength S Dr = min S.length Dr.length := by
  unfold usableLength; split <;> omega

theorem length_filter_add_filter_not {α : Type} (p : α → Bool) (l : List α) :
    (l.filter fun d => !p d).length + (l.filter fun d => p d).length = l.length := by
  induction l with
  | nil => rfl
  | cons a l ih => cases h : p a <;> simp [List.filter_cons, h] <;> omega

theorem length_pairedShipments (S : List ShipmentRecord) (Dr : List DriverRecord) :
    (pairedShipments S Dr).length = usableLength S Dr := by
  unfold pairedShipments
  rw [List.length_append, length_filter_add_filter_not, List.length_take]
  exact Nat.min_eq_left (usableLength_le_left S Dr)

theorem zipWith_mkEntry_eq_entryOf (b : Bool) (l : List ShipmentRecord)
    (hl : ∀ d ∈ l, d.isOdd = b) (Dr : List DriverRecord) :
    List.zipWith (mkEntry (if b then ODD_MULTIPLIER else EVEN_MULTIPLIER)) l Dr =
      List.zipWith entryOf l Dr := by
  induction l generalizing Dr with
  | nil => simp
  | cons a l ih =>
    cases Dr with
    | nil => simp
    | cons d Dr =>
      have ha : a.isOdd = b := hl a (List.mem_cons_self a l)
      simp only [List.zipWith_cons_cons, ih (fun x hx => hl x (List.mem_cons_of_mem a hx))]
      simp [entryOf, ha]

theorem zipWith_append_drop {α β γ : Type} (f : α → β → γ) (E O : List α) :
    ∀ Dr : List β, E.length ≤ Dr.length →
      List.zipWith f (E ++ O) Dr = List.zipWith f E Dr ++ List.zipWith f O (Dr.drop E.length) := by
  induction E with
  | nil => intro Dr _; simp
  | cons a E ih =>
    intro Dr h
    cases Dr with
    | nil => simp at h
    | cons d Dr =>
      simp only [List.length_cons, Nat.add_le_add_iff_right] at h
      simp [ih Dr h]

/-- Closed form of the matcher on sorted arrays, valid whenever the raw
driver count is at least the number of driver records. -/
theorem matchSorted_eq (S : List ShipmentRecord) (Dr : List DriverRecord) (driverCount : Nat)
    (hcount : Dr.length ≤ driverCount) :
    matchSorted S Dr driverCount = some
      { matchArr := List.zipWith entryOf (pairedShipments S Dr) Dr
        total := ((List.zipWith entryOf (pairedShipments S Dr) Dr).map entryScore).sum } := by
  have hL := usableLength_le_left S Dr
  have hR := usableLength_le_right S Dr
  have hsum := length_filter_add_filter_not (fun d : ShipmentRecord => d.isOdd)
    (S.take (usableLength S Dr))
  have hlen : (S.take (usableLength S Dr)).length = usableLength S Dr := by
    rw [List.length_take]; exact Nat.min_eq_left hL
  have hE : (List.filter (fun d : ShipmentRecord => !d.isOdd) (S.take (usableLength S Dr))).length
      ≤ Dr.length := by omega
  have h1 := phase1Loop_eq S Dr (usableLength S Dr) 0 initialState
    (by omega) (by simpa [initialState] using hR)
  have hev := zipWith_mkEntry_eq_entryOf false
    (List.filter (fun d : ShipmentRecord => !d.isOdd) (S.take (usableLength S Dr)))
    (fun d hd => by simpa using (List.mem_filter.1 hd).2)
  have hod := zipWith_mkEntry_eq_entryOf true
    (List.filter (fun d : ShipmentRecord => d.isOdd) (S.take (usableLength S Dr)))
    (fun d hd => by simpa using (List.mem_filter.1 hd).2)
  simp only [Bool.false_eq_true, if_false, if_true] at hev hod
  unfold matchSorted
  simp only [initialState, List.drop_zero, List.nil_append, Nat.zero_add, zero_add] at h1
  simp only [initialState]
  rw [h1, Option.some_bind]
  dsimp only
  rw [phase2Loop_eq _ Dr driverCount hcount _ 0 _ (by simp) (by simp only []; omega)]
  simp only [List.drop_zero, List.take_length, Option.map_some', hev, hod]
  unfold pairedShipments
  rw [zipWith_append_drop entryOf _ _ Dr hE]
  simp

/-! ## The feature extractors -/

theorem generateShipmentMapLoop_eq (toLowerCase : JSString → JSString) (lines : List JSString) :
    ∀ acc, generateShipmentMapLoop toLowerCase lines acc =
      acc ++ lines.filterMap (shipmentOfLine toLowerCase) := by
  induction lines with
  | nil => intro acc; simp [generateShipmentMapLoop]
  | cons line rest ih =>
    intro acc
    rw [generateShipmentMapLoop]
    by_cases h : (split SPACE (trim line)).length < 2
    · simp only [h, if_true, ih]
      simp [List.filterMap_cons, shipmentOfLine, h]
    · simp only [h, if_false, ih]
      simp [List.filterMap_cons, shipmentOfLine, h]

theorem generateShipmentMap_eq (toLowerCase : JSString → JSString) (lines : List JSString) :
    generateShipmentMap toLowerCase lines = lines.filterMap (shipmentOfLine toLowerCase) := by
  simp [generateShipmentMap, generateShipmentMapLoop_eq]

theorem generateDriverMapLoop_eq (lines : List JSString) :
    ∀ acc, generateDriverMapLoop lines acc = acc ++ lines.filterMap driverOfLine := by
  induction lines with
  | nil => intro acc; simp [generateDriverMapLoop]
  | cons line rest ih =>
    intro acc
    rw [generateDriverMapLoop]
    by_cases h : (join (split SPACE (trim line))).length < 1
    · simp only [h, if_true, ih]
      simp [List.filterMap_cons, driverOfLine, h]
    · simp only [h, if_false, ih]
      simp [List.filterMap_cons, driverOfLine, h]

theorem generateDriverMap_eq (lines : List JSString) :
    generateDriverMap lines = lines.filterMap driverOfLine := by
  simp [generateDriverMap, generateDriverMapLoop_eq]

theorem length_generateShipmentMap_le (toLowerCase : JSString → JSString) (lines : List JSString) :
    (generateShipmentMap toLowerCase lines).length ≤ lines.length := by
  rw [generateShipmentMap_eq]; exact List.length_filterMap_le _ _

theorem length_generateDriverMap_le (lines : List JSString) :
    (generateDriverMap lines).length ≤ lines.length := by
  rw [generateDriverMap_eq]; exact List.length_filterMap_le _ _

/-! ## The sort -/

theorem sort_perm {α : Type} (comparator : α → α → JSNumber) (arr : List α) :
    (sort comparator arr).Perm arr :=
  List.perm_insertionSort _ arr

theorem length_sort {α : Type} (comparator : α → α → JSNumber) (arr : List α) :
    (sort comparator arr).length = arr.length :=
  (sort_perm comparator arr).length_eq

theorem mem_sort {α : Type} (comparator : α → α → JSNumber) (arr : List α) (a : α) :
    a ∈ sort comparator arr ↔ a ∈ arr :=
  (sort_perm comparator arr).mem_iff

theorem length_driverMappedArray_le (driverArray : List JSString) :
    (driverMappedArray driverArray).length ≤ driverArray.length := by
  unfold driverMappedArray
  rw [length_sort]; exact length_generateDriverMap_le _

/-- Closed form of `assignShipmentToDriver`: it always returns, and pairs the
destinations in pairing order with the drivers in array order. -/
theorem assignShipmentToDriver_eq (toLowerCase : JSString → JSString)
    (shipmentArray driverArray : List JSString) :
    assignShipmentToDriver toLowerCase shipmentArray driverArray = some
      { matchArr := List.zipWith entryOf
          (pairedShipments (shipmentMappedArray toLowerCase shipmentArray)
            (driverMappedArray driverArray)) (driverMappedArray driverArray)
        total := ((List.zipWith entryOf
          (pairedShipments (shipmentMappedArray toLowerCase shipmentArray)
            (driverMappedArray driverArray)) (driverMappedArray driverArray)).map
              entryScore).sum } :=
  matchSorted_eq _ _ _ (length_driverMappedArray_le driverArray)

theorem isOdd_of_mem_generateShipmentMap (toLowerCase : JSString → JSString)
    (lines : List JSString) (d : ShipmentRecord) (hd : d ∈ generateShipmentMap toLowerCase lines) :
    d.isOdd = decide (d.length % 2 ≠ 0) := by
  rw [generateShipmentMap_eq, List.mem_filterMap] at hd
  obtain ⟨line, _, hline⟩ := hd
  unfold shipmentOfLine at hline
  split at hline
  · exact absurd hline (by simp)
  · simp only [Option.some.injEq] at hline
    subst hline
    rfl

theorem mem_pairedShipments (S : List ShipmentRecord) (Dr : List DriverRecord) (d : ShipmentRecord)
    (hd : d ∈ pairedShipments S Dr) : d ∈ S := by
  unfold pairedShipments at hd
  rcases List.mem_append.1 hd with h | h
  · exact List.mem_of_mem_take (List.mem_filter.1 h).1
  · exact List.mem_of_mem_take (List.mem_filter.1 h).1

theorem zipWith_congr_left {α β γ : Type} (f g : α → β → γ) (l : List α)
    (h : ∀ a ∈ l, ∀ b, f a b = g a b) (l2 : List β) :
    List.zipWith f l l2 = List.zipWith g l l2 := by
  induction l generalizing l2 with
  | nil => simp
  | cons a l ih =>
    cases l2 with
    | nil => simp
    | cons b l2 =>
      simp only [List.zipWith_cons_cons, h a (List.mem_cons_self a l),
        ih (fun x hx => h x (List.mem_cons_of_mem a hx))]

theorem entryOf_eq_formula (d : ShipmentRecord) (a : DriverRecord)
    (hd : d.isOdd = decide (d.length % 2 ≠ 0)) :
    entryOf d a = (d.address, a.name,
      (a.vowels : ℚ) * (if d.length % 2 = 0 then 3 / 2 else 1) *
        (if d.length = a.length then 3 / 2 else 1)) := by
  unfold entryOf mkEntry pairScore
  by_cases hpar : d.length % 2 = 0
  · have hodd : d.isOdd = false := by rw [hd]; simp [hpar]
    rw [hodd, if_pos hpar]
    by_cases heq : d.length = a.length <;>
      simp only [heq, if_true, if_false, Bool.false_eq_true, EVEN_MULTIPLIER, MATCH_MULTIPLIER,
        mul_one]
  · have hodd : d.isOdd = true := by rw [hd]; simp [hpar]
    rw [hodd, if_neg hpar]
    by_cases heq : d.length = a.length <;>
      simp only [heq, if_true, if_false, ODD_MULTIPLIER, MATCH_MULTIPLIER, mul_one]

/-! ## Scores, total and size of the result -/

/-- C1: the matcher returns, and its entries are the pairs of the
destinations in pairing order with the agents in array order, each scored
`agent vowel count × base multiplier × bonus`, where the base multiplier is
1.5 for a destination of even core length and 1 for an odd one, and the bonus
is 1.5 when destination and agent core lengths are equal and 1 otherwise. -/
theorem score_eq_vowels_mul_base_mul_bonus (toLowerCase : JSString → JSString)
    (shipmentArray driverArray : List JSString) :
    ∃ r, assignShipmentToDriver toLowerCase shipmentArray driverArray = some r ∧
      r.matchArr = List.zipWith
        (fun (destination : ShipmentRecord) (agent : DriverRecord) =>
          (destination.address, agent.name,
            (agent.vowels : ℚ) * (if destination.length % 2 = 0 then 3 / 2 else 1) *
              (if destination.length = agent.length then 3 / 2 else 1)))
        (pairedShipments (shipmentMappedArray toLowerCase shipmentArray)
          (driverMappedArray driverArray))
        (driverMappedArray driverArray) := by
  refine ⟨_, assignShipmentToDriver_eq toLowerCase shipmentArray driverArray, ?_⟩
  apply zipWith_congr_left
  intro d hd a
  apply entryOf_eq_formula
  apply isOdd_of_mem_generateShipmentMap toLowerCase shipmentArray
  exact (mem_sort _ _ _).1 (mem_pairedShipments _ _ _ hd)

/-- C2: the matcher returns, and the returned total is the sum of the scores
(third components) of the returned entries. -/
theorem total_eq_sum_of_scores (toLowerCase : JSString → JSString)
    (shipmentArray driverArray : List JSString) :
    ∃ r, assignShipmentToDriver toLowerCase shipmentArray driverArray = some r ∧
      r.total = (r.matchArr.map fun e => e.2.2).sum :=
  ⟨_, assignShipmentToDriver_eq toLowerCase shipmentArray driverArray, rfl⟩

theorem length_matchArr (S : List ShipmentRecord) (Dr : List DriverRecord) :
    (List.zipWith entryOf (pairedShipments S Dr) Dr).length = usableLength S Dr := by
  rw [List.length_zipWith, length_pairedShipments]
  exact Nat.min_eq_left (usableLength_le_right S Dr)

/-- C4: the number of entries is at most the smaller of the two record
counts, which is at most the smaller of the two line counts. -/
theorem length_matches_le_min_records_le_min_lines (toLowerCase : JSString → JSString)
    (shipmentArray driverArray : List JSString) :
    ∃ r, assignShipmentToDriver toLowerCase shipmentArray driverArray = some r ∧
      r.matchArr.length ≤ min (generateShipmentMap toLowerCase shipmentArray).length
        (generateDriverMap driverArray).length ∧
      min (generateShipmentMap toLowerCase shipmentArray).length
        (generateDriverMap driverArray).length ≤ min shipmentArray.length driverArray.length := by
  refine ⟨_, assignShipmentToDriver_eq toLowerCase shipmentArray driverArray, ?_, ?_⟩
  · show (List.zipWith entryOf _ _).length ≤ _
    rw [length_matchArr, usableLength_eq_min]
    unfold shipmentMappedArray driverMappedArray
    rw [length_sort, length_sort]
  · exact min_le_min (length_generateShipmentMap_le _ _) (length_generateDriverMap_le _)

/-! ## The pairing -/

theorem map_getElem?_filter_range {α : Type} (S : List α) (p : α → Bool) (q : Nat → Bool)
    (hq : ∀ i (h : i < S.length), q i = p S[i]) :
    ∀ n, n ≤ S.length →
      ((List.range n).filter q).map (fun i => S[i]?) = ((S.take n).filter p).map some := by
  intro n
  induction n with
  | zero => intro _; simp
  | succ n ih =>
    intro hn
    have hlt : n < S.length := by omega
    have hget : S[n]? = some S[n] := List.getElem?_eq_getElem hlt
    rw [List.range_succ, List.take_succ, List.filter_append, List.filter_append, List.map_append,
      List.map_append, ih (by omega), hget]
    congr 1
    have := hq n hlt
    cases hp : p S[n] <;> simp [List.filter_cons, hp, this, hget]

theorem map_getElem?_pairingOrder (S : List ShipmentRecord) (Dr : List DriverRecord) :
    (pairingOrder S Dr).map (fun i => S[i]?) = (pairedShipments S Dr).map some := by
  unfold pairingOrder pairedShipments
  rw [List.map_append, List.map_append]
  congr 1
  · apply map_getElem?_filter_range S (fun d => !d.isOdd) (fun i => !isOddAt S i) _ _
      (usableLength_le_left S Dr)
    intro i h
    simp [isOddAt, List.getElem?_eq_getElem h]
  · apply map_getElem?_filter_range S (fun d => d.isOdd) (fun i => isOddAt S i) _ _
      (usableLength_le_left S Dr)
    intro i h
    simp [isOddAt, List.getElem?_eq_getElem h]

theorem length_pairingOrder (S : List ShipmentRecord) (Dr : List DriverRecord) :
    (pairingOrder S Dr).length = usableLength S Dr := by
  have h := congrArg List.length (map_getElem?_pairingOrder S Dr)
  simpa [length_pairedShipments] using h

theorem nodup_pairingOrder (S : List ShipmentRecord) (Dr : List DriverRecord) :
    (pairingOrder S Dr).Nodup := by
  have hperm : (pairingOrder S Dr).Perm (List.range (usableLength S Dr)) := by
    unfold pairingOrder
    refine List.Perm.trans List.perm_append_comm ?_
    exact List.filter_append_perm (fun i => isOddAt S i) _
  exact hperm.nodup_iff.2 (List.nodup_range _)

theorem map_name_zipWith_entryOf (P : List ShipmentRecord) (Dr : List DriverRecord)
    (h : P.length ≤ Dr.length) :
    (List.zipWith entryOf P Dr).map (fun e => e.2.1) = (Dr.take P.length).map (fun a => a.name) := by
  induction P generalizing Dr with
  | nil => simp
  | cons d P ih =>
    cases Dr with
    | nil => simp at h
    | cons a Dr =>
      simp only [List.length_cons, Nat.add_le_add_iff_right] at h
      simp [ih Dr h, entryOf, mkEntry]

/-- C3: the pairing is one-to-one through one cursor. The matcher returns;
its k-th entry pairs the agent at index k of the agent array it iterates with
the destination at index `pairingOrder[k]` of the sorted destination array;
the agent names of the entries are those of the first `matches.length` agents;
and `pairingOrder` has no repeated index, so no destination position (and, the
agent index being k itself, no agent position) is used in two entries. -/
theorem pairing_is_one_to_one_single_cursor (toLowerCase : JSString → JSString)
    (shipmentArray driverArray : List JSString) :
    ∃ r, assignShipmentToDriver toLowerCase shipmentArray driverArray = some r ∧
      r.matchArr.length ≤ (driverMappedArray driverArray).length ∧
      (pairingOrder (shipmentMappedArray toLowerCase shipmentArray)
        (driverMappedArray driverArray)).length = r.matchArr.length ∧
      (pairingOrder (shipmentMappedArray toLowerCase shipmentArray)
        (driverMappedArray driverArray)).Nodup ∧
      (∀ k, k < r.matchArr.length → ∃ i destination agent,
        (pairingOrder (shipmentMappedArray toLowerCase shipmentArray)
          (driverMappedArray driverArray))[k]? = some i ∧
        (shipmentMappedArray toLowerCase shipmentArray)[i]? = some destination ∧
        (driverMappedArray driverArray)[k]? = some agent ∧
        r.matchArr[k]? = some (entryOf destination agent)) ∧
      r.matchArr.map (fun e => e.2.1) =
        ((driverMappedArray driverArray).take r.matchArr.length).map fun a => a.name := by
  refine ⟨_, assignShipmentToDriver_eq toLowerCase shipmentArray driverArray, ?_, ?_, ?_, ?_, ?_⟩
  · show (List.zipWith entryOf _ _).length ≤ _
    rw [length_matchArr]; exact usableLength_le_right _ _
  · show _ = (List.zipWith entryOf _ _).length
    rw [length_matchArr, length_pairingOrder]
  · exact nodup_pairingOrder _ _
  · intro k hk
    change k < (List.zipWith entryOf _ _).length at hk
    rw [length_matchArr] at hk
    have hkP : k < (pairingOrder (shipmentMappedArray toLowerCase shipmentArray)
        (driverMappedArray driverArray)).length := by rw [length_pairingOrder]; exact hk
    have hkS : k < (pairedShipments (shipmentMappedArray toLowerCase shipmentArray)
        (driverMappedArray driverArray)).length := by rw [length_pairedShipments]; exact hk
    have hkD : k < (driverMappedArray driverArray).length :=
      lt_of_lt_of_le hk (usableLength_le_right _ _)
    have hmap := congrArg (fun l => l[k]?) (map_getElem?_pairingOrder
      (shipmentMappedArray toLowerCase shipmentArray) (driverMappedArray driverArray))
    simp only [List.getElem?_map, List.getElem?_eq_getElem hkP, List.getElem?_eq_getElem hkS,
      Option.map_some'] at hmap
    refine ⟨_, _, _, List.getElem?_eq_getElem hkP, Option.some.inj hmap,
      List.getElem?_eq_getElem hkD, ?_⟩
    show (List.zipWith entryOf _ _)[k]? = _
    rw [List.getElem?_zipWith, List.getElem?_eq_getElem hkS, List.getElem?_eq_getElem hkD]
  · show (List.zipWith entryOf _ _).map _ = List.map _ (List.take (List.zipWith entryOf _ _).length _)
    rw [length_matchArr, ← length_pairedShipments]
    apply map_name_zipWith_entryOf
    rw [length_pairedShipments]; exact usableLength_le_right _ _

/-! ## Absence of failure -/

/-- C5: the matcher never fails. For any two lists of lines it returns a
result. Moreover, in the first loop every iteration `k` below the loop bound
reads a destination index inside the sorted destination array and starts with
the cursor below the number of agent records; and in the second loop every
iteration `k` below the length of the odd queue starts after exactly `k`
pairings with the cursor below the number of agent records. Here
`phase1Loop S Dr k 0 initialState` and `phase2Loop odd Dr n k 0 st1` are the
states in which iteration `k` of the respective loop begins. -/
theorem assignShipmentToDriver_never_fails (toLowerCase : JSString → JSString)
    (shipmentArray driverArray : List JSString) :
    (∃ r, assignShipmentToDriver toLowerCase shipmentArray driverArray = some r) ∧
    (∀ k, k < usableLength (shipmentMappedArray toLowerCase shipmentArray)
        (driverMappedArray driverArray) →
      k < (shipmentMappedArray toLowerCase shipmentArray).length ∧
      ∃ st, phase1Loop (shipmentMappedArray toLowerCase shipmentArray)
          (driverMappedArray driverArray) k 0 initialState = some st ∧
        st.lastDriver < (driverMappedArray driverArray).length) ∧
    (∃ st1, phase1Loop (shipmentMappedArray toLowerCase shipmentArray)
        (driverMappedArray driverArray)
        (usableLength (shipmentMappedArray toLowerCase shipmentArray)
          (driverMappedArray driverArray)) 0 initialState = some st1 ∧
      ∀ k, k < st1.oddShipments.length →
        ∃ st, phase2Loop st1.oddShipments (driverMappedArray driverArray) driverArray.length
            k 0 st1 = some st ∧
          st.lastDriver = st1.lastDriver + k ∧
          st.lastDriver < (driverMappedArray driverArray).length) := by
  have hL := usableLength_le_left (shipmentMappedArray toLowerCase shipmentArray)
    (driverMappedArray driverArray)
  have hR := usableLength_le_right (shipmentMappedArray toLowerCase shipmentArray)
    (driverMappedArray driverArray)
  refine ⟨⟨_, assignShipmentToDriver_eq toLowerCase shipmentArray driverArray⟩, ?_, ?_⟩
  · intro k hk
    refine ⟨lt_of_lt_of_le hk hL, _, phase1Loop_eq _ _ k 0 initialState (by omega)
      (by simp only [initialState]; omega), ?_⟩
    have hle : (List.filter (fun d : ShipmentRecord => !d.isOdd)
        (List.take k (List.drop 0 (shipmentMappedArray toLowerCase shipmentArray)))).length ≤ k :=
      le_trans (List.length_filter_le _ _) (by simp)
    simp only [initialState]
    omega
  · refine ⟨_, phase1Loop_eq _ _ _ 0 initialState (by omega)
      (by simp only [initialState]; omega), ?_⟩
    intro k hk
    have hsum := length_filter_add_filter_not (fun d : ShipmentRecord => d.isOdd)
      ((shipmentMappedArray toLowerCase shipmentArray).take
        (usableLength (shipmentMappedArray toLowerCase shipmentArray)
          (driverMappedArray driverArray)))
    have hlen : ((shipmentMappedArray toLowerCase shipmentArray).take
        (usableLength (shipmentMappedArray toLowerCase shipmentArray)
          (driverMappedArray driverArray))).length =
        usableLength (shipmentMappedArray toLowerCase shipmentArray)
          (driverMappedArray driverArray) := by
      rw [List.length_take]; exact Nat.min_eq_left hL
    simp only [initialState, List.drop_zero, List.nil_append, Nat.zero_add] at hk ⊢
    have hbound : (List.filter (fun d : ShipmentRecord => !d.isOdd)
        ((shipmentMappedArray toLowerCase shipmentArray).take
          (usableLength (shipmentMappedArray toLowerCase shipmentArray)
            (driverMappedArray driverArray)))).length + k <
        (driverMappedArray driverArray).length := by omega
    refine ⟨_, phase2Loop_eq _ _ _ (length_driverMappedArray_le driverArray) k 0 _
      (by omega) (by simp only []; omega), rfl, ?_⟩
    simp only []
    exact hbound

/-! ## Order of the agents -/

/-- C6, the code at a concrete input: with the lines `b` and `a` as agents the
matcher iterates the agents in input order, vowel counts `0` then `1`, and
pairs them in that order; the agent array is not in descending order of vowel
count. -/
theorem agents_not_sorted_by_vowels :
    (driverMappedArray [utf16 "b", utf16 "a"]).map (fun a => (a.name, a.vowels)) =
      [(utf16 "b", 0), (utf16 "a", 1)] ∧
    assignShipmentToDriver asciiLower [utf16 "1 ab St", utf16 "2 cd St"] [utf16 "b", utf16 "a"] =
      some { matchArr := [(utf16 "1 ab St", utf16 "b", 0), (utf16 "2 cd St", utf16 "a", 3 / 2)]
             total := 3 / 2 } := by
  constructor <;> decide!

/-! ## Order of the destinations -/

theorem shipment_rel_iff (a b : ShipmentRecord) :
    (shipmentComparator a b).getD 0 ≤ 0 ↔ b.length ≤ a.length := by
  simp only [shipmentComparator, jsSub, Option.getD_some]
  omega

theorem pairwise_shipmentMappedArray (toLowerCase : JSString → JSString)
    (shipmentArray : List JSString) :
    (shipmentMappedArray toLowerCase shipmentArray).Pairwise fun a b => b.length ≤ a.length := by
  haveI : IsTotal ShipmentRecord (fun a b => (shipmentComparator a b).getD 0 ≤ 0) :=
    ⟨fun a b => by simp only [shipment_rel_iff]; exact Nat.le_total _ _⟩
  haveI : IsTrans ShipmentRecord (fun a b => (shipmentComparator a b).getD 0 ≤ 0) :=
    ⟨fun a b c hab hbc => by
      simp only [shipment_rel_iff] at hab hbc ⊢; exact Nat.le_trans hbc hab⟩
  have h := List.sorted_insertionSort (fun a b => (shipmentComparator a b).getD 0 ≤ 0)
    (generateShipmentMap toLowerCase shipmentArray)
  exact List.Pairwise.imp (fun {a b} hab => (shipment_rel_iff a b).1 hab) h

theorem filter_length_sort_shipments (R : List ShipmentRecord) (n : Nat) :
    (sort shipmentComparator R).filter (fun x => decide (x.length = n)) =
      R.filter fun x => decide (x.length = n) := by
  have hpw : (R.filter fun x => decide (x.length = n)).Pairwise
      (fun a b => (shipmentComparator a b).getD 0 ≤ 0) := by
    rw [List.pairwise_iff_forall_sublist]
    intro a b hab
    have ha := (List.mem_filter.1 (hab.subset (List.mem_cons_self a [b]))).2
    have hb := (List.mem_filter.1 (hab.subset (List.mem_cons_of_mem a (List.mem_singleton_self b)))).2
    simp only [decide_eq_true_eq] at ha hb
    rw [shipment_rel_iff]; omega
  have hsub : List.Sublist (R.filter fun x => decide (x.length = n)) (sort shipmentComparator R) :=
    List.sublist_insertionSort hpw (List.filter_sublist R)
  have hsub2 := hsub.filter (fun x => decide (x.length = n))
  simp only [List.filter_filter, Bool.and_self] at hsub2
  have hlen := ((sort_perm shipmentComparator R).filter (fun x => decide (x.length = n))).length_eq
  exact (hsub2.eq_of_length hlen.symm).symm

theorem map_address_zipWith_entryOf (P : List ShipmentRecord) (Dr : List DriverRecord)
    (h : P.length ≤ Dr.length) :
    (List.zipWith entryOf P Dr).map (fun e => e.1) = P.map fun d => d.address := by
  induction P generalizing Dr with
  | nil => simp
  | cons d P ih =>
    cases Dr with
    | nil => simp at h
    | cons a Dr =>
      simp only [List.length_cons, Nat.add_le_add_iff_right] at h
      simp [ih Dr h, entryOf, mkEntry]

/-- C7: the sorted destination array `D` is a permutation of the extracted
records, in descending order of core length, with records of equal core length
in their extraction order (a stable sort); and, with `L` the smaller of the
numbers of destination and agent records, the destination strings of the
entries are, in entry order, those of the even-core-length records among the
first `L` records of `D`, followed by those of the odd-core-length records
among the first `L` records of `D`. No record at a position `≥ L` of `D`
contributes an entry. -/
theorem destinations_are_even_then_odd_of_first_records (toLowerCase : JSString → JSString)
    (shipmentArray driverArray : List JSString) :
    (shipmentMappedArray toLowerCase shipmentArray).Perm
        (generateShipmentMap toLowerCase shipmentArray) ∧
    (shipmentMappedArray toLowerCase shipmentArray).Pairwise (fun a b => b.length ≤ a.length) ∧
    (∀ n : Nat, (shipmentMappedArray toLowerCase shipmentArray).filter
        (fun x => decide (x.length = n)) =
      (generateShipmentMap toLowerCase shipmentArray).filter fun x => decide (x.length = n)) ∧
    ∃ r, assignShipmentToDriver toLowerCase shipmentArray driverArray = some r ∧
      r.matchArr.map (fun e => e.1) =
        ((((shipmentMappedArray toLowerCase shipmentArray).take
            (min (shipmentMappedArray toLowerCase shipmentArray).length
              (generateDriverMap driverArray).length)).filter
              fun x => decide (x.length % 2 = 0)) ++
          ((shipmentMappedArray toLowerCase shipmentArray).take
            (min (shipmentMappedArray toLowerCase shipmentArray).length
              (generateDriverMap driverArray).length)).filter
              fun x => decide (x.length % 2 = 1)).map fun d => d.address := by
  refine ⟨sort_perm _ _, pairwise_shipmentMappedArray _ _,
    fun n => filter_length_sort_shipments _ n,
    _, assignShipmentToDriver_eq toLowerCase shipmentArray driverArray, ?_⟩
  show (List.zipWith entryOf _ _).map _ = _
  rw [map_address_zipWith_entryOf _ _
    (by rw [length_pairedShipments]; exact usableLength_le_right _ _)]
  have hmin : min (shipmentMappedArray toLowerCase shipmentArray).length
      (generateDriverMap driverArray).length =
      usableLength (shipmentMappedArray toLowerCase shipmentArray)
        (driverMappedArray driverArray) := by
    rw [usableLength_eq_min]
    unfold driverMappedArray
    rw [length_sort]
  rw [hmin]
  unfold pairedShipments
  have hflag : ∀ x ∈ (shipmentMappedArray toLowerCase shipmentArray).take
      (usableLength (shipmentMappedArray toLowerCase shipmentArray)
        (driverMappedArray driverArray)), x.isOdd = decide (x.length % 2 ≠ 0) := fun x hx =>
    isOdd_of_mem_generateShipmentMap toLowerCase shipmentArray x
      ((mem_sort _ _ _).1 (List.mem_of_mem_take hx))
  congr 2
  · apply List.filter_congr
    intro x hx
    rw [hflag x hx]
    by_cases h : x.length % 2 = 0 <;> simp [h]
  · apply List.filter_congr
    intro x hx
    rw [hflag x hx]
    by_cases h : x.length % 2 = 0 <;> simp [h]
    omega

/-! ## The end-to-end example -/

/-- C8, as stated, fails: on the example input the matcher does not return
the scores 4.5 and 1.5 with total 6. -/
theorem example_not_scored_as_stated :
    assignShipmentToDriver asciiLower [utf16 "123 Main Street", utf16 "456 Oak Dr"]
        [utf16 "Ann Apple", utf16 "Bob"] ≠
      some { matchArr := [(utf16 "123 Main Street", utf16 "Ann Apple", 9 / 2),
                          (utf16 "456 Oak Dr", utf16 "Bob", 3 / 2)]
             total := 6 } := by
  decide!

/-- C8, amended: on the example input the matcher returns the two entries in
the stated order with scores 1.5 and 1.5 and total 3; the agent `Ann Apple`
has vowel count 1, its capital letters not being in the vowel array. -/
theorem example_end_to_end :
    assignShipmentToDriver asciiLower [utf16 "123 Main Street", utf16 "456 Oak Dr"]
        [utf16 "Ann Apple", utf16 "Bob"] =
      some { matchArr := [(utf16 "123 Main Street", utf16 "Ann Apple", 3 / 2),
                          (utf16 "456 Oak Dr", utf16 "Bob", 3 / 2)]
             total := 3 } ∧
    (driverMappedArray [utf16 "Ann Apple", utf16 "Bob"]).map (fun a => a.vowels) = [1, 1] := by
  constructor <;> decide!

/-! ## Discarded lines -/

theorem split_ne_nil (sep : Nat) (s : JSString) : split sep s ≠ [] := by
  cases s with
  | nil => simp [split]
  | cons c cs =>
    rw [split]
    split
    · simp
    · split <;> simp

theorem length_split (sep : Nat) (s : JSString) : (split sep s).length = s.count sep + 1 := by
  induction s with
  | nil => simp [split]
  | cons c cs ih =>
    rw [split]
    by_cases h : c = sep
    · subst h
      simp [ih]
    · rw [if_neg h, List.count_cons_of_ne (fun h2 => h h2.symm)]
      cases hs : split sep cs with
      | nil => exact absurd hs (split_ne_nil sep cs)
      | cons t ts => rw [hs] at ih; simpa using ih

theorem join_split_eq_nil_iff (sep : Nat) (s : JSString) : join (split sep s) = [] ↔ s = [] := by
  constructor
  · intro h
    cases s with
    | nil => rfl
    | cons c cs =>
      exfalso
      rw [split] at h
      by_cases hc : c = sep
      · rw [if_pos hc] at h
        cases hs : split sep cs with
        | nil => exact split_ne_nil sep cs hs
        | cons t ts =>
          rw [hs] at h
          simp [join, List.intercalate, List.intersperse] at h
      · rw [if_neg hc] at h
        cases hs : split sep cs with
        | nil => exact split_ne_nil sep cs hs
        | cons t ts =>
          rw [hs] at h
          cases ts <;> simp [join, List.intercalate, List.intersperse] at h
  · intro h
    subst h
    simp [split, join, List.intercalate]

theorem mem_zipWith_entryOf (P : List ShipmentRecord) (Dr : List DriverRecord) (e : MatchEntry)
    (he : e ∈ List.zipWith entryOf P Dr) :
    ∃ d ∈ P, ∃ a ∈ Dr, e = entryOf d a := by
  induction P generalizing Dr with
  | nil => simp at he
  | cons d P ih =>
    cases Dr with
    | nil => simp at he
    | cons a Dr =>
      rw [List.zipWith_cons_cons, List.mem_cons] at he
      rcases he with he | he
      · exact ⟨d, List.mem_cons_self d P, a, List.mem_cons_self a Dr, he⟩
      · obtain ⟨d2, hd2, a2, ha2, h⟩ := ih Dr he
        exact ⟨d2, List.mem_cons_of_mem d hd2, a2, List.mem_cons_of_mem a ha2, h⟩

theorem destination_of_mem_matchArr (toLowerCase : JSString → JSString)
    (shipmentArray driverArray : List JSString) (e : MatchEntry)
    (he : e ∈ List.zipWith entryOf
      (pairedShipments (shipmentMappedArray toLowerCase shipmentArray)
        (driverMappedArray driverArray)) (driverMappedArray driverArray)) :
    ∃ line ∈ shipmentArray, e.1 = trim line ∧ 2 ≤ (split SPACE (trim line)).length := by
  obtain ⟨dst, hdst, agt, _, rfl⟩ := mem_zipWith_entryOf _ _ e he
  have hmem := (mem_sort _ _ _).1 (mem_pairedShipments _ _ _ hdst)
  rw [generateShipmentMap_eq, List.mem_filterMap] at hmem
  obtain ⟨line, hline, hrec⟩ := hmem
  refine ⟨line, hline, ?_⟩
  unfold shipmentOfLine at hrec
  split at hrec
  · exact absurd hrec (by simp)
  · simp only [Option.some.injEq] at hrec
    subst hrec
    exact ⟨rfl, by omega⟩

theorem agent_of_mem_matchArr (toLowerCase : JSString → JSString)
    (shipmentArray driverArray : List JSString) (e : MatchEntry)
    (he : e ∈ List.zipWith entryOf
      (pairedShipments (shipmentMappedArray toLowerCase shipmentArray)
        (driverMappedArray driverArray)) (driverMappedArray driverArray)) :
    ∃ line ∈ driverArray, e.2.1 = trim line ∧ trim line ≠ [] := by
  obtain ⟨dst, _, agt, hagt, rfl⟩ := mem_zipWith_entryOf _ _ e he
  have hmem := (mem_sort _ _ _).1 hagt
  rw [generateDriverMap_eq, List.mem_filterMap] at hmem
  obtain ⟨line, hline, hrec⟩ := hmem
  refine ⟨line, hline, ?_⟩
  unfold driverOfLine at hrec
  split at hrec
  · exact absurd hrec (by simp)
  · rename_i hlen
    simp only [Option.some.injEq] at hrec
    subst hrec
    refine ⟨rfl, fun hnil => hlen ?_⟩
    rw [(join_split_eq_nil_iff SPACE (trim line)).2 hnil]
    simp

/-- C9: a destination line with fewer than two tokens never reaches the
output. The matcher returns; every entry's destination string is the trimmed
text of an input destination line that splits on single spaces into at least
two tokens; no entry's destination string is the trimmed text of a line with
fewer than two tokens; and a trimmed line has fewer than two tokens exactly
when it contains no space. -/
theorem short_destination_lines_never_appear (toLowerCase : JSString → JSString)
    (shipmentArray driverArray : List JSString) :
    ∃ r, assignShipmentToDriver toLowerCase shipmentArray driverArray = some r ∧
      (∀ e ∈ r.matchArr, ∃ line ∈ shipmentArray,
        e.1 = trim line ∧ 2 ≤ (split SPACE (trim line)).length) ∧
      (∀ line ∈ shipmentArray, (split SPACE (trim line)).length < 2 →
        ∀ e ∈ r.matchArr, e.1 ≠ trim line) ∧
      (∀ line : JSString, (split SPACE (trim line)).length < 2 ↔ SPACE ∉ trim line) := by
  refine ⟨_, assignShipmentToDriver_eq toLowerCase shipmentArray driverArray, ?_, ?_, ?_⟩
  · exact fun e he => destination_of_mem_matchArr toLowerCase shipmentArray driverArray e he
  · intro line _ hshort e he heq
    obtain ⟨line2, _, h1, h2⟩ :=
      destination_of_mem_matchArr toLowerCase shipmentArray driverArray e he
    rw [← h1, heq] at h2
    omega
  · intro line
    rw [length_split, ← List.count_eq_zero]
    omega

/-- C10: an agent line whose joined name is empty never reaches the output.
The matcher returns and every entry's agent string is the non-empty trimmed
text of an input agent line; `generateDriverMap` yields, in input order, one
record per line whose joined name has length at least 1, named by the trimmed
line, and none for the other lines; and the joined name of a line is empty
exactly when its trimmed text is empty. -/
theorem empty_agent_lines_never_appear (toLowerCase : JSString → JSString)
    (shipmentArray driverArray : List JSString) :
    (∃ r, assignShipmentToDriver toLowerCase shipmentArray driverArray = some r ∧
      ∀ e ∈ r.matchArr, ∃ line ∈ driverArray, e.2.1 = trim line ∧ trim line ≠ []) ∧
    (generateDriverMap driverArray).map (fun a => a.name) =
      (driverArray.filter fun line =>
        decide (1 ≤ (join (split SPACE (trim line))).length)).map trim ∧
    (∀ line : JSString, (join (split SPACE (trim line))).length < 1 ↔ trim line = []) := by
  refine ⟨⟨_, assignShipmentToDriver_eq toLowerCase shipmentArray driverArray,
    fun e he => agent_of_mem_matchArr toLowerCase shipmentArray driverArray e he⟩, ?_, ?_⟩
  · rw [generateDriverMap_eq]
    induction driverArray with
    | nil => rfl
    | cons line rest ih =>
      by_cases h : (join (split SPACE (trim line))).length < 1
      · have h2 : ¬ 1 ≤ (join (split SPACE (trim line))).length := by omega
        simp only [List.filterMap_cons, driverOfLine, h, if_true, List.filter_cons, h2,
          decide_False, Bool.false_eq_true, if_false]
        exact ih
      · have h2 : 1 ≤ (join (split SPACE (trim line))).length := by omega
        simp only [List.filterMap_cons, driverOfLine, h, if_false, List.filter_cons, h2,
          decide_True, if_true, List.map_cons]
        exact congrArg _ ih
  · intro line
    rw [← join_split_eq_nil_iff SPACE (trim line), Nat.lt_one_iff, List.length_eq_zero]

/-! ## Concrete instances -/

/-- Instance of C3 on the running example: two entries are produced, and the
entry at index 1 pairs the agent at index 1 with the destination at the index
given by the pairing order. -/
theorem pairing_is_one_to_one_single_cursor_witness :
    ∃ r, assignShipmentToDriver asciiLower exampleShipments exampleDrivers = some r ∧
      r.matchArr.length = 2 ∧
      ∃ i destination agent,
        (pairingOrder (shipmentMappedArray asciiLower exampleShipments)
          (driverMappedArray exampleDrivers))[1]? = some i ∧
        (shipmentMappedArray asciiLower exampleShipments)[i]? = some destination ∧
        (driverMappedArray exampleDrivers)[1]? = some agent ∧
        r.matchArr[1]? = some (entryOf destination agent) := by
  obtain ⟨r, hr, _, hlen, _, hk, _⟩ :=
    pairing_is_one_to_one_single_cursor asciiLower exampleShipments exampleDrivers
  have h2 : (pairingOrder (shipmentMappedArray asciiLower exampleShipments)
      (driverMappedArray exampleDrivers)).length = 2 := by decide!
  have hlen2 : r.matchArr.length = 2 := by rw [← hlen]; exact h2
  exact ⟨r, hr, hlen2, hk 1 (by omega)⟩

/-- Instance of C5 on the running example: the matcher returns; iteration 1
of the first loop reads inside both arrays; and iteration 0 of the second loop
starts with the cursor inside the agent array. -/
theorem assignShipmentToDriver_never_fails_witness :
    (∃ r, assignShipmentToDriver asciiLower exampleShipments exampleDrivers = some r) ∧
    (1 < (shipmentMappedArray asciiLower exampleShipments).length ∧
      ∃ st, phase1Loop (shipmentMappedArray asciiLower exampleShipments)
          (driverMappedArray exampleDrivers) 1 0 initialState = some st ∧
        st.lastDriver < (driverMappedArray exampleDrivers).length) ∧
    (∃ st1 st, phase1Loop (shipmentMappedArray asciiLower exampleShipments)
        (driverMappedArray exampleDrivers) 2 0 initialState = some st1 ∧
      st1.oddShipments.length = 1 ∧
      phase2Loop st1.oddShipments (driverMappedArray exampleDrivers) exampleDrivers.length
        0 0 st1 = some st ∧
      st.lastDriver < (driverMappedArray exampleDrivers).length) := by
  obtain ⟨hret, hp1, st1, hst1, hp2⟩ :=
    assignShipmentToDriver_never_fails asciiLower exampleShipments exampleDrivers
  have hL : usableLength (shipmentMappedArray asciiLower exampleShipments)
      (driverMappedArray exampleDrivers) = 2 := by decide!
  rw [hL] at hp1 hst1
  have hodd : (phase1Loop (shipmentMappedArray asciiLower exampleShipments)
      (driverMappedArray exampleDrivers) 2 0 initialState).map
        (fun st => st.oddShipments.length) = some 1 := by decide!
  rw [hst1, Option.map_some', Option.some.injEq] at hodd
  obtain ⟨st, hst, _, hlt⟩ := hp2 0 (by omega)
  exact ⟨hret, hp1 1 (by omega), st1, st, hst1, hodd, hst, hlt⟩

/-- Instance of C9: with the destination lines `123 Main Street` and `Oak`
and the agent `Bob`, one entry is produced and no entry carries the
destination `Oak`. -/
theorem short_destination_lines_never_appear_witness :
    ∃ r, assignShipmentToDriver asciiLower [utf16 "123 Main Street", utf16 "Oak"]
        [utf16 "Bob"] = some r ∧
      r.matchArr.length = 1 ∧ ∀ e ∈ r.matchArr, e.1 ≠ trim (utf16 "Oak") := by
  obtain ⟨r, hr, _, hshort, _⟩ :=
    short_destination_lines_never_appear asciiLower [utf16 "123 Main Street", utf16 "Oak"]
      [utf16 "Bob"]
  have hlen : (assignShipmentToDriver asciiLower [utf16 "123 Main Street", utf16 "Oak"]
      [utf16 "Bob"]).map (fun r => r.matchArr.length) = some 1 := by decide!
  rw [hr, Option.map_some', Option.some.injEq] at hlen
  exact ⟨r, hr, hlen, hshort (utf16 "Oak") (by simp) (by decide)⟩

/-- Instance of C10: with the agent lines `Bob` and a blank line of two
spaces, one entry is produced and its agent string is the trimmed text of an
input line and is not empty. -/
theorem empty_agent_lines_never_appear_witness :
    ∃ r e, assignShipmentToDriver asciiLower [utf16 "123 Main Street", utf16 "456 Oak Dr"]
        [utf16 "  ", utf16 "Bob"] = some r ∧
      r.matchArr = [e] ∧
      ∃ line ∈ [utf16 "  ", utf16 "Bob"], e.2.1 = trim line ∧ trim line ≠ [] := by
  obtain ⟨⟨r, hr, hmem⟩, _, _⟩ :=
    empty_agent_lines_never_appear asciiLower [utf16 "123 Main Street", utf16 "456 Oak Dr"]
      [utf16 "  ", utf16 "Bob"]
  have hval : (assignShipmentToDriver asciiLower [utf16 "123 Main Street", utf16 "456 Oak Dr"]
      [utf16 "  ", utf16 "Bob"]).map (fun r => r.matchArr) =
      some [(utf16 "123 Main Street", utf16 "Bob", 3 / 2)] := by decide!
  rw [hr, Option.map_some', Option.some.injEq] at hval
  exact ⟨r, _, hr, hval, hmem _ (by rw [hval]; exact List.mem_singleton_self _)⟩

/-! ## The vowel counter -/

theorem foldl_countVowels (V : List JSString) (s : JSString) :
    ∀ n : Nat, s.foldl (fun count char => if [char] ∈ V then count + 1 else count) n =
      n + (s.filter fun c => decide ([c] ∈ V)).length := by
  induction s with
  | nil => intro n; simp
  | cons c cs ih =>
    intro n
    rw [List.foldl_cons, ih]
    by_cases h : [c] ∈ V
    · simp only [h, if_true, List.filter_cons, decide_True, List.length_cons]; omega
    · simp only [h, if_false, List.filter_cons, decide_False, Bool.false_eq_true]

theorem countVowels_eq_length_filter (s : JSString) (V : List JSString) :
    countVowels s V = (s.filter fun c => decide ([c] ∈ V)).length := by
  unfold countVowels
  rw [foldl_countVowels]; omega

theorem vowels_of_mem_generateDriverMap (driverArray : List JSString) (a : DriverRecord)
    (ha : a ∈ generateDriverMap driverArray) :
    a.vowels = countVowels (join (split SPACE a.name)) ENGLISH_VOWELS := by
  rw [generateDriverMap_eq, List.mem_filterMap] at ha
  obtain ⟨line, _, hline⟩ := ha
  unfold driverOfLine at hline
  split at hline
  · exact absurd hline (by simp)
  · simp only [Option.some.injEq] at hline
    subst hline
    rfl

/-- C13: `countVowels s V` is the number of positions of `s` whose character
is a member of `V`; it is at most the length of `s` and additive over
concatenation. With the default vowel array a string of upper-case letters
counts zero, and the default count of the joined name is the vowel count
stored in every agent record. -/
theorem countVowels_counts_members (s t : JSString) (V : List JSString)
    (driverArray : List JSString) :
    countVowels s V = (s.filter fun c => decide ([c] ∈ V)).length ∧
    countVowels s V ≤ s.length ∧
    countVowels (s ++ t) V = countVowels s V + countVowels t V ∧
    ((∀ c ∈ s, 65 ≤ c ∧ c ≤ 90) → countVowels s = 0) ∧
    (∀ a ∈ generateDriverMap driverArray,
      a.vowels = countVowels (join (split SPACE a.name)) ENGLISH_VOWELS) := by
  refine ⟨countVowels_eq_length_filter s V, ?_, ?_, ?_, ?_⟩
  · rw [countVowels_eq_length_filter]; exact List.length_filter_le _ _
  · simp only [countVowels_eq_length_filter, List.filter_append, List.length_append]
  · intro hup
    rw [countVowels_eq_length_filter, List.length_eq_zero, List.filter_eq_nil_iff]
    intro c hc
    have := hup c hc
    simp only [ENGLISH_VOWELS, List.mem_cons, List.cons.injEq, and_true, List.mem_singleton,
      List.not_mem_nil, or_false, decide_eq_true_eq]
    omega
  · exact fun a ha => vowels_of_mem_generateDriverMap driverArray a ha

/-- Instance of C13: the upper-case string `AEIOUY` counts zero default
vowels, and the record of the agent line `Ann Apple` stores the count of its
joined name, which is 1. -/
theorem countVowels_counts_members_witness :
    countVowels (utf16 "AEIOUY") = 0 ∧
    ∀ a ∈ generateDriverMap [utf16 "Ann Apple"],
      a.vowels = countVowels (join (split SPACE a.name)) ENGLISH_VOWELS :=
  ⟨(countVowels_counts_members (utf16 "AEIOUY") [] ENGLISH_VOWELS [utf16 "Ann Apple"]).2.2.2.1
      (by decide),
    (countVowels_counts_members (utf16 "AEIOUY") [] ENGLISH_VOWELS
      [utf16 "Ann Apple"]).2.2.2.2⟩

/-! ## Empty inputs and the size of the result -/

/-- C14: when no destination line yields a record, or no agent line yields a
record, the matcher returns no entry and total 0. -/
theorem empty_records_give_empty_result (toLowerCase : JSString → JSString)
    (shipmentArray driverArray : List JSString)
    (h : generateShipmentMap toLowerCase shipmentArray = [] ∨ generateDriverMap driverArray = []) :
    assignShipmentToDriver toLowerCase shipmentArray driverArray =
      some { matchArr := [], total := 0 } := by
  rw [assignShipmentToDriver_eq]
  have hlen : (List.zipWith entryOf
      (pairedShipments (shipmentMappedArray toLowerCase shipmentArray)
        (driverMappedArray driverArray)) (driverMappedArray driverArray)).length = 0 := by
    rw [length_matchArr, usableLength_eq_min]
    unfold shipmentMappedArray driverMappedArray
    rw [length_sort, length_sort]
    rcases h with h | h <;> simp [h]
  rw [List.length_eq_zero] at hlen
  rw [hlen]
  rfl

/-- Instance of C14: on two empty lists of lines the matcher returns no entry
and total 0. -/
theorem empty_records_give_empty_result_witness :
    assignShipmentToDriver asciiLower [] [] = some { matchArr := [], total := 0 } :=
  empty_records_give_empty_result asciiLower [] [] (Or.inl rfl)

theorem map_address_generateShipmentMap (toLowerCase : JSString → JSString)
    (shipmentArray : List JSString) :
    (generateShipmentMap toLowerCase shipmentArray).map (fun d => d.address) =
      (shipmentArray.filter fun line => decide (2 ≤ (split SPACE (trim line)).length)).map trim := by
  rw [generateShipmentMap_eq]
  induction shipmentArray with
  | nil => rfl
  | cons line rest ih =>
    by_cases h : (split SPACE (trim line)).length < 2
    · have h2 : ¬ 2 ≤ (split SPACE (trim line)).length := by omega
      simp only [List.filterMap_cons, shipmentOfLine, h, if_true, List.filter_cons, h2,
        decide_False, Bool.false_eq_true, if_false]
      exact ih
    · have h2 : 2 ≤ (split SPACE (trim line)).length := by omega
      simp only [List.filterMap_cons, shipmentOfLine, h, if_false, List.filter_cons, h2,
        decide_True, if_true, List.map_cons]
      exact congrArg _ ih

/-- C16: `generateShipmentMap` keeps input order and filters exactly. The
addresses of its records are, in input order, the trimmed texts of the lines
whose trimmed text has at least two space-separated tokens, so it yields one
record for each such line and none for any other line. -/
theorem generateShipmentMap_preserves_order_and_filters (toLowerCase : JSString → JSString)
    (shipmentArray : List JSString) :
    (generateShipmentMap toLowerCase shipmentArray).map (fun d => d.address) =
      (shipmentArray.filter fun line =>
        decide (2 ≤ (split SPACE (trim line)).length)).map trim ∧
    (generateShipmentMap toLowerCase shipmentArray).length =
      (shipmentArray.filter fun line =>
        decide (2 ≤ (split SPACE (trim line)).length)).length := by
  refine ⟨map_address_generateShipmentMap toLowerCase shipmentArray, ?_⟩
  have h := congrArg List.length (map_address_generateShipmentMap toLowerCase shipmentArray)
  simpa using h

theorem pairedShipments_perm_take (S : List ShipmentRecord) (Dr : List DriverRecord) :
    (pairedShipments S Dr).Perm (S.take (usableLength S Dr)) := by
  unfold pairedShipments
  refine List.Perm.trans List.perm_append_comm ?_
  exact List.filter_append_perm (fun d : ShipmentRecord => d.isOdd) _

theorem usableLength_sorted_eq_min (toLowerCase : JSString → JSString)
    (shipmentArray driverArray : List JSString) :
    usableLength (shipmentMappedArray toLowerCase shipmentArray) (driverMappedArray driverArray) =
      min (generateShipmentMap toLowerCase shipmentArray).length
        (generateDriverMap driverArray).length := by
  rw [usableLength_eq_min]
  unfold shipmentMappedArray driverMappedArray
  rw [length_sort, length_sort]

/-- C15: the number of entries is exactly the smaller of the two record
counts. The destination strings of the entries are, up to order, those of the
first `min` records of the sorted destination array, each of them paired
whether its core length is even or odd; and when there are at least as many
destination records as agent records, the agent strings of the entries are
those of all the agent records, in the order of the agent array. -/
theorem length_matches_eq_min_records (toLowerCase : JSString → JSString)
    (shipmentArray driverArray : List JSString) :
    ∃ r, assignShipmentToDriver toLowerCase shipmentArray driverArray = some r ∧
      r.matchArr.length = min (generateShipmentMap toLowerCase shipmentArray).length
        (generateDriverMap driverArray).length ∧
      (r.matchArr.map fun e => e.1).Perm
        (((shipmentMappedArray toLowerCase shipmentArray).take
          (min (generateShipmentMap toLowerCase shipmentArray).length
            (generateDriverMap driverArray).length)).map fun d => d.address) ∧
      ((generateDriverMap driverArray).length ≤
          (generateShipmentMap toLowerCase shipmentArray).length →
        r.matchArr.map (fun e => e.2.1) =
          (driverMappedArray driverArray).map fun a => a.name) := by
  have hmin := usableLength_sorted_eq_min toLowerCase shipmentArray driverArray
  have hP := length_pairedShipments (shipmentMappedArray toLowerCase shipmentArray)
    (driverMappedArray driverArray)
  have hR := usableLength_le_right (shipmentMappedArray toLowerCase shipmentArray)
    (driverMappedArray driverArray)
  refine ⟨_, assignShipmentToDriver_eq toLowerCase shipmentArray driverArray, ?_, ?_, ?_⟩
  · show (List.zipWith entryOf _ _).length = _
    rw [length_matchArr, hmin]
  · show ((List.zipWith entryOf _ _).map _).Perm _
    rw [map_address_zipWith_entryOf _ _ (by rw [hP]; exact hR), ← hmin]
    exact (pairedShipments_perm_take _ _).map fun d : ShipmentRecord => d.address
  · intro hle
    show (List.zipWith entryOf _ _).map _ = _
    rw [map_name_zipWith_entryOf _ _ (by rw [hP]; exact hR), hP, hmin]
    have hlen : (driverMappedArray driverArray).length =
        (generateDriverMap driverArray).length := by
      unfold driverMappedArray; rw [length_sort]
    rw [Nat.min_eq_right hle, ← hlen, List.take_length]

/-- Instance of C15: three destinations of odd core length, none of even core
length and one agent give exactly one entry, and the one agent is consumed. -/
theorem length_matches_eq_min_records_witness :
    ∃ r, assignShipmentToDriver asciiLower
        [utf16 "1 abc St", utf16 "2 def St", utf16 "3 ghi St"] [utf16 "Bob"] = some r ∧
      r.matchArr.length = 1 ∧
      r.matchArr.map (fun e => e.2.1) = [utf16 "Bob"] := by
  obtain ⟨r, hr, hlen, _, hall⟩ := length_matches_eq_min_records asciiLower
    [utf16 "1 abc St", utf16 "2 def St", utf16 "3 ghi St"] [utf16 "Bob"]
  have h1 : min (generateShipmentMap asciiLower
      [utf16 "1 abc St", utf16 "2 def St", utf16 "3 ghi St"]).length
      (generateDriverMap [utf16 "Bob"]).length = 1 := by decide
  have h2 : (driverMappedArray [utf16 "Bob"]).map (fun a => a.name) = [utf16 "Bob"] := by decide
  exact ⟨r, hr, hlen.trans h1, (hall (by decide)).trans h2⟩

/-! ## The early exit of the second loop -/

theorem phase2LoopNoBreak_eq (odd : List ShipmentRecord) (Dr : List DriverRecord) :
    ∀ (n s : Nat) (st : LoopState), s + n ≤ odd.length → st.lastDriver + n ≤ Dr.length →
      phase2LoopNoBreak odd Dr n s st = some
        { totalSS := st.totalSS +
            ((List.zipWith (mkEntry ODD_MULTIPLIER) ((odd.drop s).take n)
              (Dr.drop st.lastDriver)).map entryScore).sum
          matchArr := st.matchArr ++
            List.zipWith (mkEntry ODD_MULTIPLIER) ((odd.drop s).take n) (Dr.drop st.lastDriver)
          oddShipments := st.oddShipments
          lastDriver := st.lastDriver + n } := by
  intro n
  induction n with
  | zero => intro s st _ _; simp [phase2LoopNoBreak]
  | succ n ih =>
    intro s st hs hd
    have hs1 : s < odd.length := by omega
    have hc : st.lastDriver < Dr.length := by omega
    have hSd : odd.drop s = odd[s] :: odd.drop (s + 1) := List.drop_eq_getElem_cons hs1
    have hDd : Dr.drop st.lastDriver = Dr[st.lastDriver] :: Dr.drop (st.lastDriver + 1) :=
      List.drop_eq_getElem_cons hc
    rw [phase2LoopNoBreak]
    simp only [List.getElem?_eq_getElem hs1, List.getElem?_eq_getElem hc]
    rw [ih (s + 1) _ (by omega) (by simp only [recordMatch]; omega)]
    rw [hSd, List.take_succ_cons]
    simp only [recordMatch]
    rw [hDd]
    simp [-List.getElem_cons_drop, mkEntry, entryScore, List.append_assoc, add_assoc,
      Nat.add_comm 1]

theorem phase2Loop_eq_noBreak (odd : List ShipmentRecord) (Dr : List DriverRecord)
    (driverCount : Nat) (hcount : Dr.length ≤ driverCount) (n s : Nat) (st : LoopState)
    (hs : s + n ≤ odd.length) (hd : st.lastDriver + n ≤ Dr.length) :
    phase2Loop odd Dr driverCount n s st = phase2LoopNoBreak odd Dr n s st := by
  rw [phase2Loop_eq odd Dr driverCount hcount n s st hs hd, phase2LoopNoBreak_eq odd Dr n s st hs hd]

theorem matchSorted_eq_noBreak (S : List ShipmentRecord) (Dr : List DriverRecord)
    (driverCount : Nat) (hcount : Dr.length ≤ driverCount) :
    matchSorted S Dr driverCount = matchSortedNoBreak S Dr := by
  have hL := usableLength_le_left S Dr
  have hR := usableLength_le_right S Dr
  have hsum := length_filter_add_filter_not (fun d : ShipmentRecord => d.isOdd)
    (S.take (usableLength S Dr))
  have hlen : (S.take (usableLength S Dr)).length = usableLength S Dr := by
    rw [List.length_take]; exact Nat.min_eq_left hL
  have h1 := phase1Loop_eq S Dr (usableLength S Dr) 0 initialState
    (by omega) (by simpa [initialState] using hR)
  unfold matchSorted matchSortedNoBreak
  simp only [initialState, List.drop_zero, List.nil_append, Nat.zero_add, zero_add] at h1
  simp only [initialState]
  rw [h1, Option.some_bind, Option.some_bind]
  dsimp only
  rw [phase2Loop_eq_noBreak _ Dr driverCount hcount _ 0 _ (by simp) (by simp only []; omega)]

/-- C17: the early exit of the second loop never leaves a queued destination
unmatched. For every input `assignShipmentToDriver` returns, and it returns the
same entries and total as the variant whose second loop has no early exit. -/
theorem early_exit_never_drops_a_destination (toLowerCase : JSString → JSString)
    (shipmentArray driverArray : List JSString) :
    (∃ r, assignShipmentToDriver toLowerCase shipmentArray driverArray = some r) ∧
    assignShipmentToDriver toLowerCase shipmentArray driverArray =
      assignShipmentToDriverNoBreak toLowerCase shipmentArray driverArray :=
  ⟨⟨_, assignShipmentToDriver_eq toLowerCase shipmentArray driverArray⟩,
    matchSorted_eq_noBreak _ _ _ (length_driverMappedArray_le driverArray)⟩

/-! ## The agent sort as the code runs it -/

theorem sort_driverComparator (l : List DriverRecord) : sort driverComparator l = l := by
  unfold sort
  apply List.Sorted.insertionSort_eq
  exact List.pairwise_of_forall fun a b => by
    simp [driverComparator, jsSub, DriverRecord.vowelCount]

theorem map_name_generateDriverMap (driverArray : List JSString) :
    (generateDriverMap driverArray).map (fun a => a.name) =
      (driverArray.map trim).filter fun t => decide (t ≠ []) := by
  rw [generateDriverMap_eq]
  induction driverArray with
  | nil => rfl
  | cons line rest ih =>
    by_cases h : trim line = []
    · have hj : (join (split SPACE (trim line))).length < 1 := by
        rw [(join_split_eq_nil_iff SPACE (trim line)).2 h]; simp
      simp only [List.filterMap_cons, driverOfLine, hj, if_true, List.map_cons, List.filter_cons,
        h, ne_eq, not_true_eq_false, decide_False, Bool.false_eq_true, if_false]
      exact ih
    · have hj : ¬ (join (split SPACE (trim line))).length < 1 := by
        intro hlt
        apply h
        rw [← join_split_eq_nil_iff SPACE (trim line), ← List.length_eq_zero]
        omega
      simp only [List.filterMap_cons, driverOfLine, hj, if_false, List.map_cons, List.filter_cons,
        h, ne_eq, not_false_eq_true, decide_True, if_true]
      exact congrArg _ ih

/-- C18: the agent sort leaves the extracted agent records in their original
order, its comparator value being `NaN` for every pair; so the agent strings of
the entries are, in entry order, the first `matches.length` non-empty trimmed
agent lines in input order. -/
theorem agent_sort_keeps_input_order (toLowerCase : JSString → JSString)
    (shipmentArray driverArray : List JSString) :
    (∀ first second : DriverRecord, driverComparator first second = none) ∧
    driverMappedArray driverArray = generateDriverMap driverArray ∧
    ∃ r, assignShipmentToDriver toLowerCase shipmentArray driverArray = some r ∧
      r.matchArr.map (fun e => e.2.1) =
        ((driverArray.map trim).filter fun t => decide (t ≠ [])).take r.matchArr.length := by
  refine ⟨fun _ _ => rfl, sort_driverComparator _,
    _, assignShipmentToDriver_eq toLowerCase shipmentArray driverArray, ?_⟩
  show (List.zipWith entryOf _ _).map _ = List.take (List.zipWith entryOf _ _).length _
  have hP := length_pairedShipments (shipmentMappedArray toLowerCase shipmentArray)
    (driverMappedArray driverArray)
  have hR := usableLength_le_right (shipmentMappedArray toLowerCase shipmentArray)
    (driverMappedArray driverArray)
  rw [map_name_zipWith_entryOf _ _ (by rw [hP]; exact hR), length_matchArr, hP,
    ← map_name_generateDriverMap, ← List.map_take]
  unfold driverMappedArray
  rw [sort_driverComparator]

/-! ## Scores are quarters -/

theorem entryOf_score_cases (d : ShipmentRecord) (a : DriverRecord) :
    (entryOf d a).2.2 = (a.vowels : ℚ) * 1 ∨ (entryOf d a).2.2 = (a.vowels : ℚ) * (3 / 2) ∨
      (entryOf d a).2.2 = (a.vowels : ℚ) * (9 / 4) := by
  unfold entryOf mkEntry pairScore
  cases d.isOdd <;> by_cases h : d.length = a.length <;>
    simp only [h, if_true, if_false, Bool.false_eq_true, EVEN_MULTIPLIER, ODD_MULTIPLIER,
      MATCH_MULTIPLIER]
  · right; right; ring
  · right; left; trivial
  · right; left; ring
  · left; trivial

theorem quarter_of_score_cases (v : Nat) (x : ℚ)
    (h : x = (v : ℚ) * 1 ∨ x = (v : ℚ) * (3 / 2) ∨ x = (v : ℚ) * (9 / 4)) :
    ∃ n : Nat, x = (n : ℚ) / 4 := by
  rcases h with h | h | h
  · exact ⟨4 * v, by rw [h]; push_cast; ring⟩
  · exact ⟨6 * v, by rw [h]; push_cast; ring⟩
  · exact ⟨9 * v, by rw [h]; push_cast; ring⟩

theorem sum_of_quarters (l : List ℚ) (h : ∀ x ∈ l, ∃ n : Nat, x = (n : ℚ) / 4) :
    ∃ m : Nat, l.sum = (m : ℚ) / 4 := by
  induction l with
  | nil => exact ⟨0, by simp⟩
  | cons x l ih =>
    obtain ⟨n, hn⟩ := h x (List.mem_cons_self x l)
    obtain ⟨m, hm⟩ := ih fun y hy => h y (List.mem_cons_of_mem x hy)
    exact ⟨n + m, by rw [List.sum_cons, hn, hm]; push_cast; ring⟩

/-- C19: every entry's score is the vowel count of an agent record times 1,
1.5 or 2.25, hence a non-negative integer multiple of 1/4; the total is a
non-negative integer multiple of 1/4 as well. -/
theorem scores_are_nonnegative_quarters (toLowerCase : JSString → JSString)
    (shipmentArray driverArray : List JSString) :
    ∃ r, assignShipmentToDriver toLowerCase shipmentArray driverArray = some r ∧
      (∀ e ∈ r.matchArr,
        (∃ a ∈ driverMappedArray driverArray, e.2.2 = (a.vowels : ℚ) * 1 ∨
          e.2.2 = (a.vowels : ℚ) * (3 / 2) ∨ e.2.2 = (a.vowels : ℚ) * (9 / 4)) ∧
        (∃ n : Nat, e.2.2 = (n : ℚ) / 4) ∧ 0 ≤ e.2.2) ∧
      (∃ m : Nat, r.total = (m : ℚ) / 4) ∧ 0 ≤ r.total := by
  have hentry : ∀ e ∈ List.zipWith entryOf
      (pairedShipments (shipmentMappedArray toLowerCase shipmentArray)
        (driverMappedArray driverArray)) (driverMappedArray driverArray),
      (∃ a ∈ driverMappedArray driverArray, e.2.2 = (a.vowels : ℚ) * 1 ∨
        e.2.2 = (a.vowels : ℚ) * (3 / 2) ∨ e.2.2 = (a.vowels : ℚ) * (9 / 4)) ∧
      (∃ n : Nat, e.2.2 = (n : ℚ) / 4) ∧ 0 ≤ e.2.2 := by
    intro e he
    obtain ⟨d, _, a, ha, rfl⟩ := mem_zipWith_entryOf _ _ e he
    have hc := entryOf_score_cases d a
    obtain ⟨n, hn⟩ := quarter_of_score_cases a.vowels _ hc
    exact ⟨⟨a, ha, hc⟩, ⟨n, hn⟩, by rw [hn]; positivity⟩
  have htotal : ∃ m : Nat, ((List.zipWith entryOf
      (pairedShipments (shipmentMappedArray toLowerCase shipmentArray)
        (driverMappedArray driverArray)) (driverMappedArray driverArray)).map entryScore).sum =
      (m : ℚ) / 4 := by
    apply sum_of_quarters
    intro x hx
    obtain ⟨e, he, rfl⟩ := List.mem_map.1 hx
    exact (hentry e he).2.1
  obtain ⟨m, hm⟩ := htotal
  exact ⟨_, assignShipmentToDriver_eq toLowerCase shipmentArray driverArray, hentry,
    ⟨m, hm⟩, by show 0 ≤ (List.map entryScore _).sum; rw [hm]; positivity⟩

/-- Instance of C19: on the running example the single entries have scores
that are multiples of 1/4 and the total is 12/4. -/
theorem scores_are_nonnegative_quarters_witness :
    ∃ r, assignShipmentToDriver asciiLower exampleShipments exampleDrivers = some r ∧
      r.total = ((12 : Nat) : ℚ) / 4 ∧
      ∃ n : Nat, (utf16 "456 Oak Dr", utf16 "Bob", (3 / 2 : ℚ)).2.2 = (n : ℚ) / 4 := by
  obtain ⟨r, hr, hentries, _, _⟩ :=
    scores_are_nonnegative_quarters asciiLower exampleShipments exampleDrivers
  have hval : assignShipmentToDriver asciiLower exampleShipments exampleDrivers =
      some { matchArr := [(utf16 "123 Main Street", utf16 "Ann Apple", 3 / 2),
                          (utf16 "456 Oak Dr", utf16 "Bob", 3 / 2)]
             total := 3 } := by decide!
  rw [hval, Option.some.injEq] at hr
  subst hr
  refine ⟨_, hval, by norm_num, ?_⟩
  exact (hentries _ (by simp)).2.1

/-! ## Core lengths as the code computes them -/

/-- C11, the code at a concrete input: for the destination line
`12 Mountain View Road` the record has length 13 and is flagged odd, the
joined street name being `mountain,view` with the comma that `join()` puts
between the tokens; joined with no separator the lower-cased street name has
length 12, which is even. -/
theorem shipment_length_counts_join_commas :
    generateShipmentMap asciiLower [utf16 "12 Mountain View Road"] =
      [{ address := utf16 "12 Mountain View Road", isOdd := true, length := 13 }] ∧
    asciiLower (join (splice01 (pop (split SPACE (trim (utf16 "12 Mountain View Road")))))) =
      utf16 "mountain,view" ∧
    (asciiLower (joinNoSeparator
      (splice01 (pop (split SPACE (trim (utf16 "12 Mountain View Road"))))))).length = 12 := by
  refine ⟨?_, ?_, ?_⟩ <;> decide

/-- C12, the code at a concrete input: for the agent line `Ann Apple` the
record has length 9 and is flagged odd, the joined name being `Ann,Apple` with
the comma that `join()` puts between the tokens; the trimmed line has 8
characters other than spaces, and joined with no separator the name has
length 8, which is even. -/
theorem driver_length_counts_join_commas :
    generateDriverMap [utf16 "Ann Apple"] =
      [{ name := utf16 "Ann Apple", vowels := 1, isOdd := true, length := 9 }] ∧
    join (split SPACE (trim (utf16 "Ann Apple"))) = utf16 "Ann,Apple" ∧
    ((trim (utf16 "Ann Apple")).filter fun c => decide (c ≠ SPACE)).length = 8 ∧
    (joinNoSeparator (split SPACE (trim (utf16 "Ann Apple")))).length = 8 := by
  refine ⟨?_, ?_, ?_, ?_⟩ <;> decide

end ShipmentAssignment
